import Mathlib

/-!
# Verification development for the MCP mapping conversion tool

Shallow embedding of `src/tiny_extract.py` (the `TinyV1Writer` class, the
`revengpack_format` and `alpha_csv_format` parsers, and the
`generate_all_tiny` batch driver), together with proofs about it.

Python strings are modelled as Lean `String`s; the handful of Python string
primitives the tool uses (`str.strip`, `str.split(sep)` with an explicit
one-character separator, `str.startswith`, `sep.join`) are implemented
below, character-list style, with Python semantics.  Python exceptions
(`ValueError` from tuple unpacking, `AssertionError`, `IndexError`,
`StopIteration` from `next()`, and a failed artifact download) are modelled
by `Except PyErr`.  The `csv.reader` collaborator is modelled by handing the
tabular parser its already-decoded rows (`List (List String)`), and the
`jawa`/`download_mojang_file` collaborators by an `Env` providing, for each
Minecraft version, the descriptor map mined from its jar and whether the
artifact is reachable.
-/

/-- Python whitespace, as recognized by `str.strip()` (ASCII portion). -/
def isPySpace (c : Char) : Bool :=
  c == ' ' || c == '\t' || c == '\n' || c == '\r' || c == '\x0b' || c == '\x0c'

/-- Python `s.strip()`. -/
def pystrip (s : String) : String :=
  ⟨((s.data.dropWhile isPySpace).reverse.dropWhile isPySpace).reverse⟩

/-- Python `s.split(sep)` for a one-character separator, on character lists:
keeps empty chunks, `[] ↦ [[]]`. -/
def splitCh (sep : Char) : List Char → List (List Char)
  | [] => [[]]
  | c :: cs =>
    if c == sep then [] :: splitCh sep cs
    else
      match splitCh sep cs with
      | [] => [[c]]
      | t :: r => (c :: t) :: r

/-- Python `s.split(sep)` for a one-character separator. -/
def pysplit (sep : Char) (s : String) : List String :=
  (splitCh sep s.data).map String.mk

/-- Python `s.startswith(p)`. -/
def pystartswith (s p : String) : Bool :=
  p.data.isPrefixOf s.data

/-- Python `sep.join(xs)`. -/
def pyjoin (sep : String) : List String → String
  | [] => ""
  | [x] => x
  | x :: y :: xs => x ++ sep ++ pyjoin sep (y :: xs)

/-- The Python exceptions the tool can raise. -/
inductive PyErr where
  | valueError : PyErr
  | assertionError : String → PyErr
  | indexError : PyErr
  | stopIteration : PyErr
  | downloadError : String → PyErr
deriving Repr, DecidableEq

/-- The descriptor map built by `build_descriptor_map_jar`:
class internal name -> (member key -> descriptor).  Method keys carry the
`"+func"` suffix, field keys are the bare field name. -/
abbrev DescMap := List (String × List (String × String))

/-- `desc_map[owner][member]` as a total lookup (`none` = absent). -/
def descLookup (dm : DescMap) (owner member : String) : Option String :=
  match dm.lookup owner with
  | none => none
  | some ownerDescs => ownerDescs.lookup member

/-- The `TinyV1Writer` class: namespace list fixed at construction, plus the
accumulated output lines. -/
structure TinyV1Writer where
  namespaces : List String
  lines : List String
deriving Repr, DecidableEq

/-- `TinyV1Writer.__init__`: the `v1` header line is the first line. -/
def TinyV1Writer.create (namespaces : List String) : TinyV1Writer :=
  ⟨namespaces, ["v1\t" ++ pyjoin "\t" namespaces]⟩

/-- `TinyV1Writer.add_class`. -/
def TinyV1Writer.add_class (w : TinyV1Writer) (names : List String) : TinyV1Writer :=
  { w with lines := w.lines ++ ["CLASS\t" ++ pyjoin "\t" names] }

/-- `TinyV1Writer.add_field`. -/
def TinyV1Writer.add_field (w : TinyV1Writer) (owner desc : String)
    (names : List String) : TinyV1Writer :=
  { w with lines := w.lines ++ ["FIELD\t" ++ pyjoin "\t" ([owner, desc] ++ names)] }

/-- `TinyV1Writer.add_method`. -/
def TinyV1Writer.add_method (w : TinyV1Writer) (owner desc : String)
    (names : List String) : TinyV1Writer :=
  { w with lines := w.lines ++ ["METHOD\t" ++ pyjoin "\t" ([owner, desc] ++ names)] }

/-- `TinyV1Writer.write`: the serialized file content. -/
def TinyV1Writer.write (w : TinyV1Writer) : String :=
  pyjoin "\n" w.lines ++ "\n"

/-- Parser-local state: the writer plus the warnings printed so far
(modelling the diagnostic stream). -/
structure POut where
  writer : TinyV1Writer
  warnings : List String
deriving Repr, DecidableEq

/-- A `print(f"WARNING: ...")` guarded by `do_warnings`. -/
def warn (dw : Bool) (st : POut) (msg : String) : POut :=
  if dw then { st with warnings := st.warnings ++ [msg] } else st

/-- `"/".join(off.split("/")[:-1])` — the owner part of a member path. -/
def ownerOfPath (p : String) : String :=
  pyjoin "/" ((pysplit '/' p).dropLast)

/-- `off.split("/")[-1]` — the member-name part of a member path
(`split` never yields an empty list, so the default is never used). -/
def nameOfPath (p : String) : String :=
  (pysplit '/' p).getLastD ""

/-- One iteration of the `revengpack_format` line loop either continues with
a new state or breaks out of the loop (the sentinel line). -/
inductive StepRes where
  | cont : POut → StepRes
  | stop : POut → StepRes
deriving Repr, DecidableEq

/-- The body of the `for line in lines` loop of `revengpack_format`
(src/tiny_extract.py lines 138-170): `.class_map` / `.method_map` /
`.field_map` directives, the `### GENERATED MAPPINGS:` sentinel (break),
anything else ignored.  Field descriptors are resolved from the descriptor
map; an unresolvable owner or member drops the row with a warning. -/
def revengpackStep (dm : DescMap) (dw : Bool) (st : POut) (rawLine : String) :
    Except PyErr StepRes :=
  let line := pystrip rawLine
  if pystartswith line ".class_map" then
    match pysplit ' ' line with
    | [_, off, named] => .ok (.cont { st with writer := st.writer.add_class [off, named] })
    | _ => .error .valueError
  else if pystartswith line ".method_map" then
    match pysplit ' ' line with
    | [_, off, desc, named] =>
        .ok (.cont { st with
          writer := st.writer.add_method (ownerOfPath off) desc [nameOfPath off, named] })
    | _ => .error .valueError
  else if pystartswith line ".field_map" then
    match pysplit ' ' line with
    | [_, off, named] =>
        let owner := ownerOfPath off
        let offName := nameOfPath off
        match dm.lookup owner with
        | none =>
            .ok (.cont (warn dw st ("WARNING: " ++ owner ++ " not found in provided jar")))
        | some ownerDescs =>
            match ownerDescs.lookup offName with
            | none =>
                .ok (.cont (warn dw st
                  ("WARNING: field " ++ named ++ " cannot be resolved in " ++ owner ++ "/")))
            | some d =>
                .ok (.cont { st with writer := st.writer.add_field owner d [offName, named] })
    | _ => .error .valueError
  else if pystartswith line "### GENERATED MAPPINGS:" then .ok (.stop st)
  else .ok (.cont st)

/-- The `for line in lines` loop of `revengpack_format`. -/
def revengpackLoop (dm : DescMap) (dw : Bool) (st : POut) :
    List String → Except PyErr POut
  | [] => .ok st
  | l :: ls =>
    match revengpackStep dm dw st l with
    | .error e => .error e
    | .ok (.stop st1) => .ok st1
    | .ok (.cont st1) => revengpackLoop dm dw st1 ls

/-- `revengpack_format` from the writer's construction to the end of the
line loop (the descriptor-map construction and the final `write` are glued
on by the driver model below). -/
def revengpackRun (dm : DescMap) (dw : Bool) (lines : List String) :
    Except PyErr POut :=
  revengpackLoop dm dw ⟨TinyV1Writer.create ["official", "named"], []⟩ lines

/-- The intermediary bridge built by `alpha_csv_format` from
`minecraft.rgs`: `method_map : inter -> (official path, descriptor)` and
`field_map : inter -> official path`. -/
structure Bridge where
  method_map : List (String × (String × String))
  field_map : List (String × String)
deriving Repr, DecidableEq

/-- The `.method_map` check of the bridge-building loop of
`alpha_csv_format` (src/tiny_extract.py lines 211-213); dictionary
assignment is modelled by prepending, so that `List.lookup` sees the
latest binding, as a Python dict would. -/
def bridgeMethodPass (br : Bridge) (l : String) : Except PyErr Bridge :=
  if pystartswith l ".method_map" then
    match pysplit ' ' l with
    | [_, offName, desc, inter] =>
        .ok { br with method_map := (inter, (offName, desc)) :: br.method_map }
    | _ => .error .valueError
  else .ok br

/-- The `.field_map` check of the bridge-building loop of
`alpha_csv_format` (src/tiny_extract.py lines 214-216). -/
def bridgeFieldPass (br : Bridge) (l : String) : Except PyErr Bridge :=
  if pystartswith l ".field_map" then
    match pysplit ' ' l with
    | [_, offName, inter] => .ok { br with field_map := (inter, offName) :: br.field_map }
    | _ => .error .valueError
  else .ok br

/-- The body of the bridge-building loop of `alpha_csv_format`
(src/tiny_extract.py lines 208-216): strip, then the two independent
prefix checks in source order; no sentinel handling at all. -/
def bridgeStep (br : Bridge) (rawLine : String) : Except PyErr Bridge :=
  match bridgeMethodPass br (pystrip rawLine) with
  | .error e => .error e
  | .ok br1 => bridgeFieldPass br1 (pystrip rawLine)

/-- The bridge-building loop over all lines of `minecraft.rgs`. -/
def bridgeLoop (br : Bridge) : List String → Except PyErr Bridge
  | [] => .ok br
  | l :: ls =>
    match bridgeStep br l with
    | .error e => .error e
    | .ok br1 => bridgeLoop br1 ls

/-- `alpha_csv_format`'s "Build intermediary maps first" pass. -/
def buildBridge (lines : List String) : Except PyErr Bridge :=
  bridgeLoop ⟨[], []⟩ lines

/-- The `next(reader)` header-skipping prologue: `StopIteration` is an
uncaught (fatal) exception when the file has fewer rows than headers. -/
def skipHeaders (n : Nat) (rows : List (List String)) :
    Except PyErr (List (List String)) :=
  if rows.length < n then .error .stopIteration else .ok (rows.drop n)

/-- The body of the `classes.csv` row loop of `alpha_csv_format`
(src/tiny_extract.py lines 200-203): `entry[classes_version]` (IndexError
when the row is too short), skip on the `*` wildcard, otherwise emit a
Class record `{selected, selected, entry[0]}`. -/
def alphaClassStep (cv : Nat) (st : POut) (entry : List String) :
    Except PyErr POut :=
  match entry[cv]? with
  | none => .error .indexError
  | some sel =>
    if sel == "*" then .ok st
    else
      match entry[0]? with
      | none => .error .indexError
      | some e0 => .ok { st with writer := st.writer.add_class [sel, sel, e0] }

/-- The body of the `fields.csv` row loop of `alpha_csv_format`
(src/tiny_extract.py lines 225-263).  The Python keys-list dump in the
last warning's text is rendered without `repr` quoting. -/
def alphaFieldStep (br : Bridge) (dm : DescMap) (dw : Bool) (st : POut)
    (entry : List String) : Except PyErr POut :=
  if entry.length < 7 then .ok st
  else
    let interName := entry.getD 2 ""
    if interName == "*" then .ok st
    else
      let namedName := entry.getD 6 ""
      match br.field_map.lookup interName with
      | none =>
          .ok (warn dw st ("WARNING: " ++ namedName ++ " aka " ++ interName ++
            " cannot be mapped back to function."))
      | some offPath =>
        let offCls := ownerOfPath offPath
        let offName := nameOfPath offPath
        match dm.lookup offCls with
        | none => .ok (warn dw st ("WARNING: " ++ offCls ++ " not found in provided jar"))
        | some ownerDescs =>
          match ownerDescs.lookup offName with
          | none =>
              .ok (warn dw st ("WARNING: field " ++ offName ++
                " cannot be resolved in " ++ offCls ++ ": " ++
                pyjoin ", " (ownerDescs.map Prod.fst)))
          | some d =>
              .ok { st with
                writer := st.writer.add_field offCls d [offName, interName, namedName] }

/-- The body of the `methods.csv` row loop of `alpha_csv_format`
(src/tiny_extract.py lines 272-297): cells are stripped, short rows and
wildcard/empty intermediary cells are skipped, a wildcard human-name cell
trips the `assert named_name != "*", "Mapping issue"` (fatal), and a
missing bridge entry drops the row with a warning. -/
def alphaMethodStep (br : Bridge) (dw : Bool) (st : POut)
    (entryRaw : List String) : Except PyErr POut :=
  let entry := entryRaw.map pystrip
  if entry.length < 5 then .ok st
  else
    let e1 := entry.getD 1 ""
    if e1 == "*" || e1.length == 0 then .ok st
    else
      let interName := e1
      let namedName := entry.getD 4 ""
      if namedName == "*" then .error (.assertionError "Mapping issue")
      else
        match br.method_map.lookup interName with
        | none =>
            .ok (warn dw st ("WARNING: " ++ namedName ++ " aka " ++ interName ++
              " cannot be mapped back to method"))
        | some po =>
            .ok { st with
              writer := st.writer.add_method (ownerOfPath po.1) po.2
                [nameOfPath po.1, interName, namedName] }

/-- A row loop shared by the three csv sections of `alpha_csv_format`. -/
def sectionLoop (step : POut → List String → Except PyErr POut) (st : POut) :
    List (List String) → Except PyErr POut
  | [] => .ok st
  | r :: rs =>
    match step st r with
    | .error e => .error e
    | .ok st1 => sectionLoop step st1 rs

/-- `alpha_csv_format` from the writer's construction to the end of the
`methods.csv` loop, in the source's order: classes (4 headers), bridge
build from `minecraft.rgs`, fields (3 headers), methods (4 headers). -/
def alphaRun (dm : DescMap) (dw : Bool) (cv : Nat)
    (classesRows : List (List String)) (rgsLines : List String)
    (fieldsRows : List (List String)) (methodsRows : List (List String)) :
    Except PyErr POut :=
  match skipHeaders 4 classesRows with
  | .error e => .error e
  | .ok cls =>
    match sectionLoop (alphaClassStep cv)
        ⟨TinyV1Writer.create ["official", "intermediary", "named"], []⟩ cls with
    | .error e => .error e
    | .ok st1 =>
      match buildBridge rgsLines with
      | .error e => .error e
      | .ok br =>
        match skipHeaders 3 fieldsRows with
        | .error e => .error e
        | .ok flds =>
          match sectionLoop (alphaFieldStep br dm dw) st1 flds with
          | .error e => .error e
          | .ok st2 =>
            match skipHeaders 4 methodsRows with
            | .error e => .error e
            | .ok mths => sectionLoop (alphaMethodStep br dw) st2 mths

/-- A declared job of the batch driver: the target Minecraft version, the
output path, the dialect (`rgs` = `revengpack_format`, `alpha k` =
`alpha_csv_format` with `classes_version = k`), and the raw mapping-set
files already materialized by the out-of-scope extraction collaborator. -/
inductive JobStyle where
  | rgs : JobStyle
  | alpha : Nat → JobStyle
deriving Repr, DecidableEq

structure Job where
  mcver : String
  outPath : String
  style : JobStyle
  rgsLines : List String
  classesRows : List (List String)
  fieldsRows : List (List String)
  methodsRows : List (List String)
deriving Repr, DecidableEq

/-- The external collaborators: per-version descriptor extraction from the
jar (`build_descriptor_map_jar` over `jawa`) and artifact reachability
(`download_mojang_file` succeeding or raising). -/
structure Env where
  verDesc : String → DescMap
  downloadOk : String → Bool

/-- The observable state of one batch run: the output files on disk
(path -> content, latest binding first), the jar files present in the
run's shared temporary directory, one entry per `build_descriptor_map_jar`
invocation, one entry per `download_mojang_file` invocation, and the
warnings printed. -/
structure DriverState where
  fs : List (String × String)
  jarCache : List String
  builds : List String
  downloads : List String
  warnLog : List String
deriving Repr, DecidableEq

/-- The state a batch run starts from: the output directory contents
survive from earlier runs, everything else is fresh (the jar directory is
a new `tempfile.TemporaryDirectory` each run). -/
def initState (fs : List (String × String)) : DriverState :=
  ⟨fs, [], [], [], []⟩

/-- `build_descriptor_map_moj`: reuse the jar if already present in the
temp dir, otherwise download it (failure is a raised exception), then
build the descriptor map from the jar — on every call, with no per-version
memoization of the map itself. -/
def build_descriptor_map_moj (env : Env) (mcver : String) (st : DriverState) :
    Except PyErr (DescMap × DriverState) :=
  if mcver ∈ st.jarCache then
    .ok (env.verDesc mcver, { st with builds := st.builds ++ [mcver] })
  else if env.downloadOk mcver then
    .ok (env.verDesc mcver,
      { st with jarCache := mcver :: st.jarCache,
                downloads := st.downloads ++ [mcver],
                builds := st.builds ++ [mcver] })
  else .error (.downloadError mcver)

/-- Dispatch to the job's dialect parser (the parsing part of
`revengpack_format` / `alpha_csv_format`). -/
def jobParse (dw : Bool) (j : Job) (dm : DescMap) : Except PyErr POut :=
  match j.style with
  | .rgs => revengpackRun dm dw j.rgsLines
  | .alpha cv => alphaRun dm dw cv j.classesRows j.rgsLines j.fieldsRows j.methodsRows

/-- One non-skipped job, as the source runs it: build the descriptor map
(inside the parser function in the source; hoisted here, preserving the
order build-then-parse-then-write), parse, and only on success serialize
the writer to the job's output path.  A raised exception leaves the
partially-updated state and surfaces the error — there is no handler. -/
def runJob (env : Env) (dw : Bool) (j : Job) (st : DriverState) :
    DriverState × Option PyErr :=
  match build_descriptor_map_moj env j.mcver st with
  | .error e => (st, some e)
  | .ok (dm, st1) =>
    match jobParse dw j dm with
    | .error e => (st1, some e)
    | .ok pout =>
      ({ st1 with fs := (j.outPath, pout.writer.write) :: st1.fs,
                  warnLog := st1.warnLog ++ pout.warnings }, none)

/-- `generate_all_tiny` (src/tiny_extract.py lines 338-367): iterate the
declared jobs in order, skip a job whose output path already exists, run
the rest; an exception raised by a job propagates out of the loop — the
source wraps no job in a `try`, so the remaining jobs never run. -/
def generate_all_tiny (env : Env) (dw : Bool) :
    List Job → DriverState → DriverState × Option PyErr
  | [], st => (st, none)
  | j :: rest, st =>
    if (st.fs.lookup j.outPath).isSome then generate_all_tiny env dw rest st
    else
      match runJob env dw j st with
      | (st1, none) => generate_all_tiny env dw rest st1
      | (st1, some e) => (st1, some e)

/-- The environment used by the concrete batches below: every artifact is
reachable and mines to an empty descriptor map. -/
def envW : Env := ⟨fun _ => [], fun _ => true⟩

/-- A tabular-dialect job whose `methods.csv` holds (after its four header
rows) one data row with a non-wildcard intermediary cell and a wildcard
human-name cell — the row that trips the `assert`. -/
def jobFatal : Job :=
  { mcver := "a1.1.2", outPath := "outA.tiny", style := .alpha 1,
    rgsLines := [],
    classesRows := [["h"], ["h"], ["h"], ["h"]],
    fieldsRows := [["h"], ["h"], ["h"]],
    methodsRows := [["h"], ["h"], ["h"], ["h"], ["c", "m1", "x", "x", "*"]] }

/-- A directive-dialect job with a single class directive. -/
def jobOk : Job :=
  { mcver := "a1.1.2", outPath := "outB.tiny", style := .rgs,
    rgsLines := [".class_map Abc Named"],
    classesRows := [], fieldsRows := [], methodsRows := [] }

/-- A second directive-dialect job against the same Minecraft version. -/
def jobOk2 : Job :=
  { mcver := "a1.1.2", outPath := "outC.tiny", style := .rgs,
    rgsLines := [".class_map Abc Named"],
    classesRows := [], fieldsRows := [], methodsRows := [] }

/-- No tab occurs in the string.  The tab-separated tiny v1 line format
carries one value per cell only for tab-free values, so the namespace-count
invariant is stated for inputs whose lines and cells are tab-free (true of
every real mapping file; a tab inside an identifier would already have been
mangled by the source's whitespace handling). -/
def tabFree (s : String) : Prop := '\t' ∉ s.data

instance (s : String) : Decidable (tabFree s) := by
  unfold tabFree
  infer_instance

/-- The tab-separated cells of an output line. -/
def tabCells (l : String) : List String := pysplit '\t' l

/-- How many namespace values a record line carries: everything after the
kind tag for a `CLASS` line, everything after the kind tag, owner and
descriptor for a `FIELD`/`METHOD` line; `none` for a non-record line. -/
def recordNsCount (l : String) : Option Nat :=
  if pystartswith l "CLASS\t" then some ((tabCells l).length - 1)
  else if pystartswith l "FIELD\t" || pystartswith l "METHOD\t" then
    some ((tabCells l).length - 3)
  else none

/-- How many namespace names a header line declares. -/
def headerNsCount (l : String) : Nat := (tabCells l).length - 1

/-- The parser state carried by a `StepRes`, whether the loop continued or
stopped. -/
def StepRes.pout : StepRes → POut
  | .cont s => s
  | .stop s => s

/-- The writer holds the given header line followed by record lines that
each carry exactly `k` namespace values. -/
def linesInv (k : Nat) (hdr : String) (w : TinyV1Writer) : Prop :=
  ∃ recs, w.lines = hdr :: recs ∧ ∀ l ∈ recs, recordNsCount l = some k

/-- Every cell of every row is tab-free. -/
def rowsTabFree (rows : List (List String)) : Prop :=
  ∀ r ∈ rows, ∀ c ∈ r, tabFree c

/-- Every descriptor value of the descriptor map is tab-free. -/
def dmTabFree (dm : DescMap) : Prop :=
  ∀ p ∈ dm, ∀ q ∈ p.2, tabFree q.2

/-- Every stored path and descriptor of the bridge is tab-free. -/
def bridgeTabFree (br : Bridge) : Prop :=
  (∀ p ∈ br.method_map, tabFree p.2.1 ∧ tabFree p.2.2) ∧
  (∀ p ∈ br.field_map, tabFree p.2)

/-! ## Driver composition lemmas -/

theorem gat_append (env : Env) (dw : Bool) (js1 js2 : List Job) (st : DriverState) :
    generate_all_tiny env dw (js1 ++ js2) st =
      match generate_all_tiny env dw js1 st with
      | (st1, none) => generate_all_tiny env dw js2 st1
      | (st1, some e) => (st1, some e) := by
  induction js1 generalizing st with
  | nil => simp [generate_all_tiny]
  | cons j rest ih =>
    simp only [List.cons_append, generate_all_tiny]
    by_cases h : (st.fs.lookup j.outPath).isSome
    · simp only [h, if_true]
      exact ih st
    · simp only [h, Bool.false_eq_true, if_false]
      cases hr : runJob env dw j st with
      | mk st1 r =>
        cases r with
        | none => exact ih st1
        | some e => rfl

theorem bridgeLoop_append (br : Bridge) (ls1 ls2 : List String) :
    bridgeLoop br (ls1 ++ ls2) =
      match bridgeLoop br ls1 with
      | .error e => .error e
      | .ok br1 => bridgeLoop br1 ls2 := by
  induction ls1 generalizing br with
  | nil => simp [bridgeLoop]
  | cons l ls ih =>
    simp only [List.cons_append, bridgeLoop]
    cases bridgeStep br l with
    | error e => rfl
    | ok br1 => exact ih br1

/-! ## C1 -/

/-- C1: counterexample.  A batch of two declared jobs where the first hits
the method-table wildcard assertion: the whole run surfaces the
`AssertionError` and the second job is never executed (its output path is
never written), contradicting the claimed job-granularity failure
isolation of `generate_all_tiny`. -/
theorem claim1_isolation_cex :
    (generate_all_tiny envW true [jobFatal, jobOk] (initState [])).2 =
        some (.assertionError "Mapping issue") ∧
    ((generate_all_tiny envW true [jobFatal, jobOk] (initState [])).1.fs.lookup
        jobOk.outPath) = none :=
  ⟨rfl, rfl⟩

/-- C1 (amended): a job's fatal error aborts the entire batch run, not just
that job.  `generate_all_tiny` wraps no job in a handler, so once a
non-skipped job raises, the driver returns that error with the state as it
stood at the failure: jobs before the failing one complete, and the jobs
declared after it are never executed. -/
theorem claim1_amended (env : Env) (dw : Bool) (pre post : List Job) (j : Job)
    (st st1 st2 : DriverState) (e : PyErr)
    (hpre : generate_all_tiny env dw pre st = (st1, none))
    (hskip : (st1.fs.lookup j.outPath).isSome = false)
    (hj : runJob env dw j st1 = (st2, some e)) :
    generate_all_tiny env dw (pre ++ j :: post) st = (st2, some e) := by
  rw [gat_append, hpre]
  simp only [generate_all_tiny, hskip, Bool.false_eq_true, if_false, hj]

/-- Witness for the amended C1 at a concrete batch. -/
theorem claim1_amended_witness :
    generate_all_tiny envW true ([] ++ jobFatal :: [jobOk]) (initState []) =
      (⟨[], ["a1.1.2"], ["a1.1.2"], ["a1.1.2"], []⟩,
       some (.assertionError "Mapping issue")) :=
  claim1_amended envW true [] [jobOk] jobFatal (initState []) (initState [])
    ⟨[], ["a1.1.2"], ["a1.1.2"], ["a1.1.2"], []⟩ (.assertionError "Mapping issue")
    rfl rfl rfl

/-! ## C2 -/

/-- C2: counterexample.  Two successful jobs targeting the same binary
version in one batch run invoke `build_descriptor_map_jar` twice — the
descriptor map is rebuilt per job, not built once per distinct version —
while the jar itself is only downloaded once. -/
theorem claim2_rebuild_cex :
    (generate_all_tiny envW true [jobOk, jobOk2] (initState [])).1.builds =
        ["a1.1.2", "a1.1.2"] ∧
    (generate_all_tiny envW true [jobOk, jobOk2] (initState [])).2 = none ∧
    (generate_all_tiny envW true [jobOk, jobOk2] (initState [])).1.downloads =
        ["a1.1.2"] :=
  ⟨rfl, rfl, rfl⟩

theorem build_moj_cache (env : Env) (mcver : String) (st : DriverState)
    (dm : DescMap) (st1 : DriverState)
    (h : build_descriptor_map_moj env mcver st = .ok (dm, st1))
    (hnd : st.downloads.Nodup) (hsub : ∀ v ∈ st.downloads, v ∈ st.jarCache) :
    st1.downloads.Nodup ∧ (∀ v ∈ st1.downloads, v ∈ st1.jarCache) := by
  unfold build_descriptor_map_moj at h
  split at h
  · cases h
    exact ⟨hnd, hsub⟩
  · next hmem =>
    split at h
    · cases h
      refine ⟨?_, ?_⟩
      · rw [List.nodup_append]
        refine ⟨hnd, List.nodup_singleton _, ?_⟩
        intro v hv hv1
        rw [List.mem_singleton] at hv1
        exact hmem (hv1 ▸ hsub v hv)
      · intro v hv
        rw [List.mem_append, List.mem_singleton] at hv
        rcases hv with hv | hv
        · exact List.mem_cons_of_mem _ (hsub v hv)
        · exact hv ▸ List.mem_cons_self _ _
    · cases h

theorem runJob_cache (env : Env) (dw : Bool) (j : Job) (st : DriverState)
    (hnd : st.downloads.Nodup) (hsub : ∀ v ∈ st.downloads, v ∈ st.jarCache) :
    ((runJob env dw j st).1.downloads).Nodup ∧
      (∀ v ∈ (runJob env dw j st).1.downloads, v ∈ (runJob env dw j st).1.jarCache) := by
  cases hb : build_descriptor_map_moj env j.mcver st with
  | error e => simp only [runJob, hb]; exact ⟨hnd, hsub⟩
  | ok p =>
    obtain ⟨dm, st1⟩ := p
    have h1 := build_moj_cache env j.mcver st dm st1 hb hnd hsub
    cases hp : jobParse dw j dm with
    | error e => simp only [runJob, hb, hp]; exact h1
    | ok pout => simp only [runJob, hb, hp]; exact h1

theorem gat_cache (env : Env) (dw : Bool) (jobs : List Job) (st : DriverState)
    (hnd : st.downloads.Nodup) (hsub : ∀ v ∈ st.downloads, v ∈ st.jarCache) :
    ((generate_all_tiny env dw jobs st).1.downloads).Nodup := by
  induction jobs generalizing st with
  | nil => exact hnd
  | cons j rest ih =>
    simp only [generate_all_tiny]
    by_cases h : (st.fs.lookup j.outPath).isSome
    · simp only [h, if_true]
      exact ih st hnd hsub
    · simp only [h, Bool.false_eq_true, if_false]
      have hrj := runJob_cache env dw j st hnd hsub
      cases hr : runJob env dw j st with
      | mk st1 r =>
        rw [hr] at hrj
        cases r with
        | none => exact ih st1 hrj.1 hrj.2
        | some e => exact hrj.1

/-- C2 (amended): in one batch run the jar artifact for a version is
fetched at most once (the download list of a run from a fresh temporary
directory has no duplicates — later jobs find the jar on disk), but the
DescriptorTable itself is not cached: every job that is executed (not
skipped) performs its own `build_descriptor_map_jar` pass, appending one
build record for its target version. -/
theorem claim2_amended (env : Env) (dw : Bool) (jobs : List Job)
    (fs0 : List (String × String)) :
    ((generate_all_tiny env dw jobs (initState fs0)).1.downloads).Nodup ∧
    (∀ j st st1, runJob env dw j st = (st1, none) →
        st1.builds = st.builds ++ [j.mcver]) := by
  constructor
  · exact gat_cache env dw jobs (initState fs0) List.nodup_nil (by intro v hv; cases hv)
  · intro j st st1 h
    unfold runJob at h
    cases hb : build_descriptor_map_moj env j.mcver st with
    | error e =>
      simp only [hb] at h
      exact Option.noConfusion (congrArg Prod.snd h)
    | ok p =>
      obtain ⟨dm, st2⟩ := p
      simp only [hb] at h
      have hst2 : st2.builds = st.builds ++ [j.mcver] := by
        unfold build_descriptor_map_moj at hb
        split at hb
        · cases hb; rfl
        · split at hb
          · cases hb; rfl
          · cases hb
      cases hp : jobParse dw j dm with
      | error e =>
        simp only [hp] at h
        exact Option.noConfusion (congrArg Prod.snd h)
      | ok pout =>
        simp only [hp] at h
        have h1 := congrArg Prod.fst h
        dsimp only at h1
        rw [← h1]
        exact hst2

/-- Witness for the amended C2 at a concrete batch. -/
theorem claim2_amended_witness :
    ((generate_all_tiny envW true [jobOk, jobOk2] (initState [])).1.downloads).Nodup ∧
    (runJob envW true jobOk (initState [])).1.builds =
      (initState []).builds ++ [jobOk.mcver] :=
  ⟨(claim2_amended envW true [jobOk, jobOk2] []).1,
   (claim2_amended envW true [jobOk, jobOk2] []).2 jobOk (initState [])
     (runJob envW true jobOk (initState [])).1 rfl⟩

/-! ## C3 -/

/-- C3: counterexample.  On a directive file whose only directive sits
after the `### GENERATED MAPPINGS:` sentinel, the bridge-building pass of
`alpha_csv_format` still records it in the BridgeMap's field side, while
the standalone directive parser (`revengpack_format`) stops at the
sentinel and emits nothing — so the bridge pass does not process the file
as the standalone parser does. -/
theorem claim3_sentinel_cex :
    buildBridge ["### GENERATED MAPPINGS:", ".field_map a/b c"] =
        .ok ⟨[], [("c", "a/b")]⟩ ∧
    revengpackRun [] true ["### GENERATED MAPPINGS:", ".field_map a/b c"] =
        .ok ⟨TinyV1Writer.create ["official", "named"], []⟩ :=
  ⟨rfl, rfl⟩

/-- C3 (amended): the bridge-building pass has no sentinel handling at
all: the `### GENERATED MAPPINGS:` line is treated as any other
non-directive line and scanning continues, so directives after the
sentinel enter the BridgeMap exactly as directives before it do. -/
theorem claim3_amended (pre post : List String) (br : Bridge) :
    bridgeLoop br (pre ++ "### GENERATED MAPPINGS:" :: post) =
      bridgeLoop br (pre ++ post) := by
  rw [bridgeLoop_append, bridgeLoop_append]
  cases bridgeLoop br pre with
  | error e => rfl
  | ok br1 =>
    show bridgeLoop br1 ("### GENERATED MAPPINGS:" :: post) = bridgeLoop br1 post
    have hs : bridgeStep br1 "### GENERATED MAPPINGS:" = .ok br1 := rfl
    simp only [bridgeLoop, hs]

/-! ## Warning-stream lemmas -/

theorem warn_writer (dw : Bool) (st : POut) (msg : String) :
    (warn dw st msg).writer = st.writer := by
  cases dw <;> rfl

theorem warn_length (dw : Bool) (st : POut) (msg : String) :
    (warn dw st msg).warnings.length =
      st.warnings.length + (if dw then 1 else 0) := by
  cases dw <;> simp [warn]

/-! ## C10 -/

theorem build_moj_fs (env : Env) (mcver : String) (st : DriverState)
    (dm : DescMap) (st1 : DriverState)
    (h : build_descriptor_map_moj env mcver st = .ok (dm, st1)) :
    st1.fs = st.fs := by
  unfold build_descriptor_map_moj at h
  split at h
  · cases h; rfl
  · split at h
    · cases h; rfl
    · cases h

/-- C10: the writer serializes only as the final step of a successful
parse.  When a job ends in a raised error (`runJob` surfaces `some e` —
e.g. the method-table wildcard assertion, a malformed directive, or an
unreachable artifact), the output-file map is exactly as before the job:
nothing was created at the job's output path, so a later batch run will
not see that path as already done. -/
theorem claim10_no_partial_output (env : Env) (dw : Bool) (j : Job)
    (st st1 : DriverState) (e : PyErr)
    (h : runJob env dw j st = (st1, some e)) :
    st1.fs = st.fs ∧ st1.fs.lookup j.outPath = st.fs.lookup j.outPath := by
  have hfs : st1.fs = st.fs := by
    unfold runJob at h
    cases hb : build_descriptor_map_moj env j.mcver st with
    | error e2 =>
      simp only [hb] at h
      have h1 : st = st1 := congrArg Prod.fst h
      rw [← h1]
    | ok p =>
      obtain ⟨dm, st2⟩ := p
      simp only [hb] at h
      have hb2 := build_moj_fs env j.mcver st dm st2 hb
      cases hp : jobParse dw j dm with
      | error e2 =>
        simp only [hp] at h
        have h1 : st2 = st1 := congrArg Prod.fst h
        rw [← h1]
        exact hb2
      | ok pout =>
        simp only [hp] at h
        exact Option.noConfusion (congrArg Prod.snd h)
  exact ⟨hfs, by rw [hfs]⟩

/-- Witness for C10 at the concrete assertion-tripping job. -/
theorem claim10_no_partial_output_witness :
    (runJob envW true jobFatal (initState [])).1.fs = (initState []).fs ∧
    (runJob envW true jobFatal (initState [])).1.fs.lookup jobFatal.outPath =
      (initState []).fs.lookup jobFatal.outPath :=
  claim10_no_partial_output envW true jobFatal (initState [])
    (runJob envW true jobFatal (initState [])).1 (.assertionError "Mapping issue") rfl

/-! ## C6 -/

/-- C6: a directive file containing exactly `.class_map Abc Named`, against
the empty descriptor map, yields a writer holding the header line plus the
single record line `CLASS<TAB>Abc<TAB>Named`, and the serialized output
file is exactly those two lines. -/
theorem claim6_scenario_a (dw : Bool) :
    revengpackRun [] dw [".class_map Abc Named"] =
      .ok ⟨⟨["official", "named"], ["v1\tofficial\tnamed", "CLASS\tAbc\tNamed"]⟩, []⟩ ∧
    TinyV1Writer.write ⟨["official", "named"], ["v1\tofficial\tnamed", "CLASS\tAbc\tNamed"]⟩ =
      "v1\tofficial\tnamed\nCLASS\tAbc\tNamed\n" := by
  cases dw <;> exact ⟨rfl, rfl⟩

/-! ## C4 -/

/-- C4: on a `.field_map` directive line (split into the keyword, the
official path, and the named identifier), the directive parser emits a
Field record exactly when the descriptor-map lookup for
(owner, member, field-keyed) succeeds, and that record's descriptor is
exactly the lookup result; when the owner or the member is absent the line
emits nothing and only a suppressible warning is recorded. -/
theorem claim4_field_descriptor (dm : DescMap) (dw : Bool) (st : POut)
    (l w0 off named : String)
    (hc : pystartswith (pystrip l) ".class_map" = false)
    (hm : pystartswith (pystrip l) ".method_map" = false)
    (hf : pystartswith (pystrip l) ".field_map" = true)
    (hsplit : pysplit ' ' (pystrip l) = [w0, off, named]) :
    (∀ d, descLookup dm (ownerOfPath off) (nameOfPath off) = some d →
        revengpackStep dm dw st l = .ok (.cont { st with
          writer := st.writer.add_field (ownerOfPath off) d [nameOfPath off, named] })) ∧
    (descLookup dm (ownerOfPath off) (nameOfPath off) = none →
        ∃ st1, revengpackStep dm dw st l = .ok (.cont st1) ∧
          st1.writer = st.writer ∧
          st1.warnings.length = st.warnings.length + (if dw then 1 else 0)) := by
  unfold revengpackStep
  simp only [hc, hm, hf, hsplit, Bool.false_eq_true, if_false, if_true]
  constructor
  · intro d hd
    unfold descLookup at hd
    cases hlo : List.lookup (ownerOfPath off) dm with
    | none =>
      rw [hlo] at hd
      exact Option.noConfusion hd
    | some ds =>
      rw [hlo] at hd
      dsimp only at hd
      simp only [hlo, hd]
  · intro hd
    unfold descLookup at hd
    cases hlo : List.lookup (ownerOfPath off) dm with
    | none =>
      simp only [hlo]
      exact ⟨_, rfl, warn_writer dw st _, warn_length dw st _⟩
    | some ds =>
      rw [hlo] at hd
      dsimp only at hd
      simp only [hlo, hd]
      exact ⟨_, rfl, warn_writer dw st _, warn_length dw st _⟩

/-- Witness for C4: both the emitting and the dropping case at concrete
directive lines. -/
theorem claim4_field_descriptor_witness :
    revengpackStep [("a", [("b", "I")])] true
        ⟨TinyV1Writer.create ["official", "named"], []⟩ ".field_map a/b named1" =
      .ok (.cont ⟨(TinyV1Writer.create ["official", "named"]).add_field
        (ownerOfPath "a/b") "I" [nameOfPath "a/b", "named1"], []⟩) :=
  (claim4_field_descriptor [("a", [("b", "I")])] true
      ⟨TinyV1Writer.create ["official", "named"], []⟩ ".field_map a/b named1"
      ".field_map" "a/b" "named1" rfl rfl rfl rfl).1 "I" rfl

/-! ## C5 -/

/-- C5: in the tabular method table, a data row with at least five
(stripped) cells and a non-wildcard, non-empty intermediary cell whose
human-name cell is the wildcard `*` raises the fatal
`AssertionError "Mapping issue"` (no Method record is emitted — the whole
job aborts), while such a row whose human name is not `*` but whose
intermediary identifier has no bridge entry is dropped non-fatally with
only a suppressible warning. -/
theorem claim5_method_wildcard_fatal (br : Bridge) (dw : Bool) (st : POut)
    (entryRaw : List String)
    (h5 : ¬ (entryRaw.map pystrip).length < 5)
    (h1s : (entryRaw.map pystrip).getD 1 "" ≠ "*")
    (h1e : ((entryRaw.map pystrip).getD 1 "").length ≠ 0) :
    ((entryRaw.map pystrip).getD 4 "" = "*" →
        alphaMethodStep br dw st entryRaw = .error (.assertionError "Mapping issue")) ∧
    ((entryRaw.map pystrip).getD 4 "" ≠ "*" →
      br.method_map.lookup ((entryRaw.map pystrip).getD 1 "") = none →
        ∃ st1, alphaMethodStep br dw st entryRaw = .ok st1 ∧ st1.writer = st.writer ∧
          st1.warnings.length = st.warnings.length + (if dw then 1 else 0)) := by
  unfold alphaMethodStep
  simp only [if_neg h5]
  have hcond : ((entryRaw.map pystrip).getD 1 "" == "*" ||
      ((entryRaw.map pystrip).getD 1 "").length == 0) = false := by
    rw [Bool.or_eq_false_iff]
    exact ⟨beq_eq_false_iff_ne.mpr h1s, beq_eq_false_iff_ne.mpr h1e⟩
  simp only [hcond, Bool.false_eq_true, if_false]
  constructor
  · intro h4
    simp only [h4, beq_self_eq_true, if_true]
  · intro h4 hlook
    have h4b : ((entryRaw.map pystrip).getD 4 "" == "*") = false :=
      beq_eq_false_iff_ne.mpr h4
    simp only [h4b, Bool.false_eq_true, if_false, hlook]
    exact ⟨_, rfl, warn_writer dw st _, warn_length dw st _⟩

/-- Witness for C5 at the concrete assertion-tripping row. -/
theorem claim5_method_wildcard_fatal_witness :
    alphaMethodStep ⟨[], []⟩ true
        ⟨TinyV1Writer.create ["official", "intermediary", "named"], []⟩
        ["c", "m1", "x", "x", "*"] =
      .error (.assertionError "Mapping issue") :=
  (claim5_method_wildcard_fatal ⟨[], []⟩ true
      ⟨TinyV1Writer.create ["official", "intermediary", "named"], []⟩
      ["c", "m1", "x", "x", "*"] (by decide) (by decide) (by decide)).1 (by decide)

/-! ## C7 -/

/-- C7: a class-table data row whose selected epoch column holds the
wildcard `*` emits nothing; any other data row emits exactly one Class
record whose namespace values are {selected value, selected value, first
column} — the selected spelling fills both the official and intermediary
slots, the first column is the human name. -/
theorem claim7_class_row (cv : Nat) (st : POut) (entry : List String) (sel : String)
    (hget : entry[cv]? = some sel) :
    (sel = "*" → alphaClassStep cv st entry = .ok st) ∧
    (sel ≠ "*" → alphaClassStep cv st entry =
        .ok { st with writer := st.writer.add_class [sel, sel, entry.getD 0 ""] }) := by
  have h0 : entry[0]? = some (entry.getD 0 "") := by
    cases entry with
    | nil => simp at hget
    | cons a tl => rw [List.getElem?_cons_zero, List.getD_cons_zero]
  unfold alphaClassStep
  simp only [hget, h0]
  constructor
  · intro h
    simp only [h, beq_self_eq_true, if_true]
  · intro h
    have hb : (sel == "*") = false := by simp [h]
    simp only [hb, Bool.false_eq_true, if_false]

/-- Witness for C7: the emitting case at a concrete row, with the epoch
selector picking column 1. -/
theorem claim7_class_row_witness :
    alphaClassStep 1 ⟨TinyV1Writer.create ["official", "intermediary", "named"], []⟩
        ["Human", "ab", "cd"] =
      .ok ⟨(TinyV1Writer.create ["official", "intermediary", "named"]).add_class
        ["ab", "ab", ["Human", "ab", "cd"].getD 0 ""], []⟩ :=
  (claim7_class_row 1 ⟨TinyV1Writer.create ["official", "intermediary", "named"], []⟩
      ["Human", "ab", "cd"] "ab" rfl).2 (by decide)

/-! ## C8 -/

theorem runJob_ok_fs (env : Env) (dw : Bool) (j : Job) (st st1 : DriverState)
    (h : runJob env dw j st = (st1, none)) :
    ∃ c, st1.fs = (j.outPath, c) :: st.fs := by
  unfold runJob at h
  cases hb : build_descriptor_map_moj env j.mcver st with
  | error e =>
    simp only [hb] at h
    exact Option.noConfusion (congrArg Prod.snd h)
  | ok p =>
    obtain ⟨dm, st2⟩ := p
    simp only [hb] at h
    have hb2 := build_moj_fs env j.mcver st dm st2 hb
    cases hp : jobParse dw j dm with
    | error e =>
      simp only [hp] at h
      exact Option.noConfusion (congrArg Prod.snd h)
    | ok pout =>
      simp only [hp] at h
      have h1 : _ = st1 := congrArg Prod.fst h
      refine ⟨pout.writer.write, ?_⟩
      rw [← h1]
      dsimp only
      rw [hb2]

theorem runJob_err_fs (env : Env) (dw : Bool) (j : Job) (st st1 : DriverState)
    (e : PyErr) (h : runJob env dw j st = (st1, some e)) : st1.fs = st.fs := by
  unfold runJob at h
  cases hb : build_descriptor_map_moj env j.mcver st with
  | error e2 =>
    simp only [hb] at h
    have h1 : st = st1 := congrArg Prod.fst h
    rw [← h1]
  | ok p =>
    obtain ⟨dm, st2⟩ := p
    simp only [hb] at h
    have hb2 := build_moj_fs env j.mcver st dm st2 hb
    cases hp : jobParse dw j dm with
    | error e2 =>
      simp only [hp] at h
      have h1 : st2 = st1 := congrArg Prod.fst h
      rw [← h1]
      exact hb2
    | ok pout =>
      simp only [hp] at h
      exact Option.noConfusion (congrArg Prod.snd h)

theorem lookup_isSome_append (ext fs : List (String × String)) (k : String)
    (h : (fs.lookup k).isSome) : ((ext ++ fs).lookup k).isSome := by
  induction ext with
  | nil => exact h
  | cons p ps ih =>
    obtain ⟨a, b⟩ := p
    simp only [List.cons_append, List.lookup]
    cases hk : k == a with
    | true => rfl
    | false => exact ih

theorem gat_fs_ext (env : Env) (dw : Bool) (jobs : List Job) (st : DriverState) :
    ∃ ext, (generate_all_tiny env dw jobs st).1.fs = ext ++ st.fs := by
  induction jobs generalizing st with
  | nil => exact ⟨[], rfl⟩
  | cons j rest ih =>
    simp only [generate_all_tiny]
    by_cases h : (st.fs.lookup j.outPath).isSome
    · simp only [h, if_true]
      exact ih st
    · simp only [h, Bool.false_eq_true, if_false]
      cases hr : runJob env dw j st with
      | mk st1 r =>
        cases r with
        | none =>
          obtain ⟨c, hc⟩ := runJob_ok_fs env dw j st st1 hr
          obtain ⟨ext, hext⟩ := ih st1
          exact ⟨ext ++ [(j.outPath, c)], by rw [hext, hc, List.append_assoc, List.singleton_append]⟩
        | some e =>
          have hfs := runJob_err_fs env dw j st st1 e hr
          exact ⟨[], by simpa using hfs⟩

theorem gat_outputs (env : Env) (dw : Bool) (jobs : List Job)
    (st st1 : DriverState) (h : generate_all_tiny env dw jobs st = (st1, none)) :
    ∀ j ∈ jobs, (st1.fs.lookup j.outPath).isSome := by
  induction jobs generalizing st with
  | nil =>
    intro j hj
    cases hj
  | cons j0 rest ih =>
    intro j hj
    simp only [generate_all_tiny] at h
    by_cases hskip : (st.fs.lookup j0.outPath).isSome
    · rw [if_pos hskip] at h
      rcases List.mem_cons.mp hj with hj0 | hjr
      · obtain ⟨ext, hext⟩ := gat_fs_ext env dw rest st
        have h1 : _ = st1 := congrArg Prod.fst h
        rw [h1] at hext
        rw [hext, hj0]
        exact lookup_isSome_append ext st.fs j0.outPath hskip
      · exact ih st h j hjr
    · rw [if_neg hskip] at h
      cases hr : runJob env dw j0 st with
      | mk st2 r =>
        rw [hr] at h
        cases r with
        | none =>
          rcases List.mem_cons.mp hj with hj0 | hjr
          · obtain ⟨c, hc⟩ := runJob_ok_fs env dw j0 st st2 hr
            obtain ⟨ext, hext⟩ := gat_fs_ext env dw rest st2
            have h1 : _ = st1 := congrArg Prod.fst h
            rw [h1] at hext
            rw [hext, hc, hj0]
            apply lookup_isSome_append
            simp [List.lookup]
          · exact ih st2 h j hjr
        | some e => exact Option.noConfusion (congrArg Prod.snd h)

theorem gat_skip (env : Env) (dw : Bool) (jobs : List Job) (st : DriverState)
    (h : ∀ j ∈ jobs, (st.fs.lookup j.outPath).isSome) :
    generate_all_tiny env dw jobs st = (st, none) := by
  induction jobs with
  | nil => rfl
  | cons j rest ih =>
    simp only [generate_all_tiny, h j (List.mem_cons_self j rest), if_true]
    exact ih (fun j2 hj2 => h j2 (List.mem_cons_of_mem _ hj2))

/-- C8: idempotence of the batch.  If a batch run from a fresh temporary
directory completes without error, then a second run of the same declared
jobs over the untouched output directory skips every job before any
artifact or parsing work (the run is a pure no-op: no download, no
descriptor-map build, no warning, no write) and leaves the output files
exactly as the first run left them. -/
theorem claim8_idempotent (env : Env) (dw : Bool) (jobs : List Job)
    (fs0 : List (String × String)) (st1 : DriverState)
    (h : generate_all_tiny env dw jobs (initState fs0) = (st1, none)) :
    generate_all_tiny env dw jobs (initState st1.fs) = (initState st1.fs, none) :=
  gat_skip env dw jobs (initState st1.fs)
    (fun j hj => gat_outputs env dw jobs (initState fs0) st1 h j hj)

/-- Witness for C8 at a concrete one-job batch. -/
theorem claim8_idempotent_witness :
    generate_all_tiny envW true [jobOk]
        (initState (generate_all_tiny envW true [jobOk] (initState [])).1.fs) =
      (initState (generate_all_tiny envW true [jobOk] (initState [])).1.fs, none) :=
  claim8_idempotent envW true [jobOk] []
    (generate_all_tiny envW true [jobOk] (initState [])).1 rfl

/-! ## C9: splitting and joining lemmas -/

theorem string_mk_data (s : String) : String.mk s.data = s := rfl

theorem splitCh_ne_nil (sep : Char) (l : List Char) : splitCh sep l ≠ [] := by
  cases l with
  | nil => exact fun h => List.noConfusion h
  | cons c cs =>
    unfold splitCh
    split
    · exact fun h => List.noConfusion h
    · split
      · exact fun h => List.noConfusion h
      · exact fun h => List.noConfusion h

theorem splitCh_no_sep (sep : Char) (l : List Char) (h : sep ∉ l) :
    splitCh sep l = [l] := by
  induction l with
  | nil => rfl
  | cons c cs ih =>
    have hc : (c == sep) = false :=
      beq_eq_false_iff_ne.mpr (fun he => h (he ▸ List.mem_cons_self c cs))
    have hcs : sep ∉ cs := fun hm => h (List.mem_cons_of_mem _ hm)
    unfold splitCh
    simp only [hc, Bool.false_eq_true, if_false, ih hcs]

theorem splitCh_append (sep : Char) (a b : List Char) (h : sep ∉ a) :
    splitCh sep (a ++ sep :: b) = a :: splitCh sep b := by
  induction a with
  | nil =>
    simp only [List.nil_append]
    simp only [splitCh, beq_self_eq_true, if_true]
  | cons c cs ih =>
    have hc : (c == sep) = false :=
      beq_eq_false_iff_ne.mpr (fun he => h (he ▸ List.mem_cons_self c cs))
    have hcs : sep ∉ cs := fun hm => h (List.mem_cons_of_mem _ hm)
    simp only [List.cons_append]
    simp only [splitCh, hc, Bool.false_eq_true, if_false, ih hcs]

theorem mem_splitCh (sep : Char) (l t : List Char) (ht : t ∈ splitCh sep l)
    (a : Char) (ha : a ∈ t) : a ∈ l := by
  induction l generalizing t with
  | nil =>
    unfold splitCh at ht
    rw [List.mem_singleton] at ht
    subst ht
    cases ha
  | cons c cs ih =>
    unfold splitCh at ht
    by_cases hc : (c == sep) = true
    · rw [if_pos hc] at ht
      rcases List.mem_cons.mp ht with h1 | h1
      · subst h1; cases ha
      · exact List.mem_cons_of_mem _ (ih t h1 ha)
    · rw [if_neg hc] at ht
      cases hsp : splitCh sep cs with
      | nil => exact absurd hsp (splitCh_ne_nil sep cs)
      | cons t0 r0 =>
        rw [hsp] at ht
        rcases List.mem_cons.mp ht with h1 | h1
        · subst h1
          rcases List.mem_cons.mp ha with h2 | h2
          · exact h2 ▸ List.mem_cons_self c cs
          · refine List.mem_cons_of_mem _ (ih t0 ?_ h2)
            rw [hsp]
            exact List.mem_cons_self t0 r0
        · refine List.mem_cons_of_mem _ (ih t ?_ ha)
          rw [hsp]
          exact List.mem_cons_of_mem t0 h1

theorem mem_pystrip (s : String) (a : Char) (ha : a ∈ (pystrip s).data) :
    a ∈ s.data := by
  have ha2 : a ∈ ((s.data.dropWhile isPySpace).reverse.dropWhile isPySpace).reverse := ha
  rw [List.mem_reverse] at ha2
  have h1 : a ∈ (s.data.dropWhile isPySpace).reverse :=
    (List.dropWhile_sublist _).subset ha2
  rw [List.mem_reverse] at h1
  exact (List.dropWhile_sublist _).subset h1

theorem pysplit_ne_nil (sep : Char) (s : String) : pysplit sep s ≠ [] := by
  unfold pysplit
  intro h
  exact splitCh_ne_nil sep s.data (List.map_eq_nil_iff.mp h)

theorem tabFree_of_mem_pysplit (sep : Char) (s : String) (hs : tabFree s)
    (t : String) (ht : t ∈ pysplit sep s) : tabFree t := by
  unfold pysplit at ht
  rcases List.mem_map.mp ht with ⟨tc, htc, hteq⟩
  intro ha
  rw [← hteq] at ha
  exact hs (mem_splitCh sep s.data tc htc '\t' ha)

theorem tabFree_pystrip (s : String) (hs : tabFree s) : tabFree (pystrip s) :=
  fun ha => hs (mem_pystrip s '\t' ha)

theorem tabFree_token (s : String) (hs : tabFree s) (t : String)
    (ht : t ∈ pysplit ' ' (pystrip s)) : tabFree t :=
  tabFree_of_mem_pysplit ' ' (pystrip s) (tabFree_pystrip s hs) t ht

theorem tabFree_pyjoin (sep : String) (hsep : tabFree sep) (xs : List String)
    (h : ∀ x ∈ xs, tabFree x) : tabFree (pyjoin sep xs) := by
  induction xs with
  | nil => exact fun ha => List.not_mem_nil _ ha
  | cons x ys ih =>
    cases ys with
    | nil => exact h x (List.mem_cons_self x [])
    | cons y zs =>
      intro ha
      have ha2 : '\t' ∈ x.data ++ sep.data ++ (pyjoin sep (y :: zs)).data := ha
      rcases List.mem_append.mp ha2 with h2 | h2
      · rcases List.mem_append.mp h2 with h3 | h3
        · exact h x (List.mem_cons_self _ _) h3
        · exact hsep h3
      · exact ih (fun z hz => h z (List.mem_cons_of_mem _ hz)) h2

theorem getLastD_mem {α : Type} (l : List α) (hne : l ≠ []) :
    ∀ d, l.getLastD d ∈ l := by
  induction l with
  | nil => exact absurd rfl hne
  | cons a as ih =>
    intro d
    cases as with
    | nil => exact List.mem_cons_self _ _
    | cons b bs => exact List.mem_cons_of_mem a (ih (List.cons_ne_nil _ _) a)

theorem tabFree_ownerOfPath (p : String) (hp : tabFree p) :
    tabFree (ownerOfPath p) := by
  unfold ownerOfPath
  apply tabFree_pyjoin "/" (by decide)
  intro x hx
  exact tabFree_of_mem_pysplit '/' p hp x ((List.dropLast_sublist _).subset hx)

theorem tabFree_nameOfPath (p : String) (hp : tabFree p) :
    tabFree (nameOfPath p) := by
  unfold nameOfPath
  exact tabFree_of_mem_pysplit '/' p hp _
    (getLastD_mem (pysplit '/' p) (pysplit_ne_nil '/' p) "")

theorem splitCh_pyjoin (names : List String) (h : ∀ n ∈ names, tabFree n)
    (hne : names ≠ []) :
    splitCh '\t' (pyjoin "\t" names).data = names.map String.data := by
  induction names with
  | nil => exact absurd rfl hne
  | cons x ys ih =>
    cases ys with
    | nil =>
      show splitCh '\t' x.data = [x.data]
      exact splitCh_no_sep '\t' x.data (h x (List.mem_cons_self x []))
    | cons y zs =>
      have hx : '\t' ∉ x.data := h x (List.mem_cons_self _ _)
      have hdata : (pyjoin "\t" (x :: y :: zs)).data
          = x.data ++ '\t' :: (pyjoin "\t" (y :: zs)).data := by
        show (x ++ "\t" ++ pyjoin "\t" (y :: zs)).data = _
        rw [String.data_append, String.data_append, List.append_assoc]
        rfl
      rw [hdata, splitCh_append '\t' x.data _ hx,
        ih (fun n hn => h n (List.mem_cons_of_mem _ hn)) (List.cons_ne_nil y zs)]
      rfl

theorem tabCells_record (tag : List Char) (htag : '\t' ∉ tag) (names : List String)
    (h : ∀ n ∈ names, tabFree n) (hne : names ≠ []) :
    tabCells (String.mk (tag ++ ['\t']) ++ pyjoin "\t" names) =
      String.mk tag :: names := by
  unfold tabCells pysplit
  have hdata : (String.mk (tag ++ ['\t']) ++ pyjoin "\t" names).data
      = tag ++ '\t' :: (pyjoin "\t" names).data := by
    rw [String.data_append]
    show (tag ++ ['\t']) ++ _ = _
    rw [List.append_assoc]
    rfl
  rw [hdata, splitCh_append '\t' tag _ htag, splitCh_pyjoin names h hne]
  simp only [List.map_cons, List.map_map]
  congr 1
  simp [Function.comp_def, string_mk_data]

theorem isPrefixOf_append_self (a b : List Char) : a.isPrefixOf (a ++ b) = true := by
  induction a with
  | nil => simp [List.isPrefixOf]
  | cons c cs ih => simp [List.isPrefixOf, ih]

theorem recordNsCount_class (names : List String) (h : ∀ n ∈ names, tabFree n)
    (hne : names ≠ []) :
    recordNsCount ("CLASS\t" ++ pyjoin "\t" names) = some names.length := by
  have hcells : tabCells ("CLASS\t" ++ pyjoin "\t" names) = "CLASS" :: names := by
    have e : ("CLASS\t" : String) = String.mk ("CLASS".data ++ ['\t']) := rfl
    rw [e, tabCells_record "CLASS".data (by decide) names h hne]
  have hpre : pystartswith ("CLASS\t" ++ pyjoin "\t" names) "CLASS\t" = true := by
    unfold pystartswith
    rw [String.data_append]
    exact isPrefixOf_append_self _ _
  unfold recordNsCount
  simp only [hpre, if_true, hcells]
  simp

theorem recordNsCount_field (owner desc : String) (names : List String)
    (ho : tabFree owner) (hd : tabFree desc) (h : ∀ n ∈ names, tabFree n)
    (hne : names ≠ []) :
    recordNsCount ("FIELD\t" ++ pyjoin "\t" ([owner, desc] ++ names)) =
      some names.length := by
  have hall : ∀ n ∈ [owner, desc] ++ names, tabFree n := by
    intro n hn
    rcases List.mem_append.mp hn with h1 | h1
    · rcases List.mem_cons.mp h1 with h2 | h2
      · exact h2 ▸ ho
      · rw [List.mem_singleton] at h2
        exact h2 ▸ hd
    · exact h n h1
  have hcells : tabCells ("FIELD\t" ++ pyjoin "\t" ([owner, desc] ++ names)) =
      "FIELD" :: ([owner, desc] ++ names) := by
    have e : ("FIELD\t" : String) = String.mk ("FIELD".data ++ ['\t']) := rfl
    rw [e, tabCells_record "FIELD".data (by decide) _ hall
      (by exact List.cons_ne_nil _ _)]
  have hpre1 : pystartswith ("FIELD\t" ++ pyjoin "\t" ([owner, desc] ++ names))
      "CLASS\t" = false := by
    unfold pystartswith
    rw [String.data_append]
    rfl
  have hpre2 : pystartswith ("FIELD\t" ++ pyjoin "\t" ([owner, desc] ++ names))
      "FIELD\t" = true := by
    unfold pystartswith
    rw [String.data_append]
    exact isPrefixOf_append_self _ _
  unfold recordNsCount
  simp only [hpre1, Bool.false_eq_true, if_false, hpre2, Bool.true_or, if_true, hcells]
  simp only [List.length_cons, List.length_append, List.length_nil]
  congr 1
  omega

theorem recordNsCount_method (owner desc : String) (names : List String)
    (ho : tabFree owner) (hd : tabFree desc) (h : ∀ n ∈ names, tabFree n)
    (hne : names ≠ []) :
    recordNsCount ("METHOD\t" ++ pyjoin "\t" ([owner, desc] ++ names)) =
      some names.length := by
  have hall : ∀ n ∈ [owner, desc] ++ names, tabFree n := by
    intro n hn
    rcases List.mem_append.mp hn with h1 | h1
    · rcases List.mem_cons.mp h1 with h2 | h2
      · exact h2 ▸ ho
      · rw [List.mem_singleton] at h2
        exact h2 ▸ hd
    · exact h n h1
  have hcells : tabCells ("METHOD\t" ++ pyjoin "\t" ([owner, desc] ++ names)) =
      "METHOD" :: ([owner, desc] ++ names) := by
    have e : ("METHOD\t" : String) = String.mk ("METHOD".data ++ ['\t']) := rfl
    rw [e, tabCells_record "METHOD".data (by decide) _ hall
      (by exact List.cons_ne_nil _ _)]
  have hpre1 : pystartswith ("METHOD\t" ++ pyjoin "\t" ([owner, desc] ++ names))
      "CLASS\t" = false := by
    unfold pystartswith
    rw [String.data_append]
    rfl
  have hpre2 : pystartswith ("METHOD\t" ++ pyjoin "\t" ([owner, desc] ++ names))
      "FIELD\t" = false := by
    unfold pystartswith
    rw [String.data_append]
    rfl
  have hpre3 : pystartswith ("METHOD\t" ++ pyjoin "\t" ([owner, desc] ++ names))
      "METHOD\t" = true := by
    unfold pystartswith
    rw [String.data_append]
    exact isPrefixOf_append_self _ _
  unfold recordNsCount
  simp only [hpre1, Bool.false_eq_true, if_false, hpre2, hpre3, Bool.false_or, if_true,
    hcells]
  simp only [List.length_cons, List.length_append, List.length_nil]
  congr 1
  omega

/-! ## C9: writer and parser invariants -/

theorem mem_of_lookup {β : Type} (l : List (String × β)) (k : String) (v : β)
    (h : List.lookup k l = some v) : (k, v) ∈ l := by
  induction l with
  | nil => cases h
  | cons p ps ih =>
    obtain ⟨a, b⟩ := p
    simp only [List.lookup] at h
    cases hk : (k == a) with
    | true =>
      rw [hk] at h
      have hb : b = v := Option.some.inj h
      subst hb
      have hk2 : k = a := eq_of_beq hk
      subst hk2
      exact List.mem_cons_self _ _
    | false =>
      rw [hk] at h
      exact List.mem_cons_of_mem _ (ih h)

theorem getD_mem {α : Type} (l : List α) (i : Nat) (d : α) (hi : i < l.length) :
    l.getD i d ∈ l := by
  rw [List.getD_eq_getElem l d hi]
  exact List.getElem_mem hi

theorem linesInv_add_class (k : Nat) (hdr : String) (w : TinyV1Writer)
    (names : List String) (hw : linesInv k hdr w) (h : ∀ n ∈ names, tabFree n)
    (hlen : names.length = k) (hne : names ≠ []) :
    linesInv k hdr (w.add_class names) := by
  obtain ⟨recs, hr, hall⟩ := hw
  refine ⟨recs ++ ["CLASS\t" ++ pyjoin "\t" names], ?_, ?_⟩
  · show w.lines ++ ["CLASS\t" ++ pyjoin "\t" names] =
      hdr :: (recs ++ ["CLASS\t" ++ pyjoin "\t" names])
    rw [hr]
    rfl
  · intro l hl
    rcases List.mem_append.mp hl with h1 | h1
    · exact hall l h1
    · rw [List.mem_singleton] at h1
      subst h1
      rw [recordNsCount_class names h hne, hlen]

theorem linesInv_add_field (k : Nat) (hdr : String) (w : TinyV1Writer)
    (owner desc : String) (names : List String) (hw : linesInv k hdr w)
    (ho : tabFree owner) (hd : tabFree desc) (h : ∀ n ∈ names, tabFree n)
    (hlen : names.length = k) (hne : names ≠ []) :
    linesInv k hdr (w.add_field owner desc names) := by
  obtain ⟨recs, hr, hall⟩ := hw
  refine ⟨recs ++ ["FIELD\t" ++ pyjoin "\t" ([owner, desc] ++ names)], ?_, ?_⟩
  · show w.lines ++ ["FIELD\t" ++ pyjoin "\t" ([owner, desc] ++ names)] =
      hdr :: (recs ++ ["FIELD\t" ++ pyjoin "\t" ([owner, desc] ++ names)])
    rw [hr]
    rfl
  · intro l hl
    rcases List.mem_append.mp hl with h1 | h1
    · exact hall l h1
    · rw [List.mem_singleton] at h1
      subst h1
      rw [recordNsCount_field owner desc names ho hd h hne, hlen]

theorem linesInv_add_method (k : Nat) (hdr : String) (w : TinyV1Writer)
    (owner desc : String) (names : List String) (hw : linesInv k hdr w)
    (ho : tabFree owner) (hd : tabFree desc) (h : ∀ n ∈ names, tabFree n)
    (hlen : names.length = k) (hne : names ≠ []) :
    linesInv k hdr (w.add_method owner desc names) := by
  obtain ⟨recs, hr, hall⟩ := hw
  refine ⟨recs ++ ["METHOD\t" ++ pyjoin "\t" ([owner, desc] ++ names)], ?_, ?_⟩
  · show w.lines ++ ["METHOD\t" ++ pyjoin "\t" ([owner, desc] ++ names)] =
      hdr :: (recs ++ ["METHOD\t" ++ pyjoin "\t" ([owner, desc] ++ names)])
    rw [hr]
    rfl
  · intro l hl
    rcases List.mem_append.mp hl with h1 | h1
    · exact hall l h1
    · rw [List.mem_singleton] at h1
      subst h1
      rw [recordNsCount_method owner desc names ho hd h hne, hlen]

theorem revengpackStep_inv (dm : DescMap) (dw : Bool) (st : POut) (l : String)
    (r : StepRes) (hdr : String) (hdm : dmTabFree dm) (hl : tabFree l)
    (hw : linesInv 2 hdr st.writer) (h : revengpackStep dm dw st l = .ok r) :
    linesInv 2 hdr r.pout.writer := by
  unfold revengpackStep at h
  dsimp only at h
  by_cases h1 : pystartswith (pystrip l) ".class_map" = true
  · rw [if_pos h1] at h
    split at h
    · rename_i head off named heq
      cases h
      apply linesInv_add_class 2 hdr st.writer [off, named] hw ?_ rfl
        (List.cons_ne_nil _ _)
      intro n hn
      rcases List.mem_cons.mp hn with hn1 | hn1
      · subst hn1
        refine tabFree_token l hl n ?_
        rw [heq]
        exact List.mem_cons_of_mem _ (List.mem_cons_self _ _)
      · rw [List.mem_singleton] at hn1
        subst hn1
        refine tabFree_token l hl n ?_
        rw [heq]
        exact List.mem_cons_of_mem _ (List.mem_cons_of_mem _ (List.mem_cons_self _ _))
    · exact Except.noConfusion h
  · rw [if_neg h1] at h
    by_cases h2 : pystartswith (pystrip l) ".method_map" = true
    · rw [if_pos h2] at h
      split at h
      · rename_i head off desc named heq
        cases h
        have hoff : tabFree off := by
          refine tabFree_token l hl off ?_
          rw [heq]
          exact List.mem_cons_of_mem _ (List.mem_cons_self _ _)
        apply linesInv_add_method 2 hdr st.writer (ownerOfPath off) desc
          [nameOfPath off, named] hw (tabFree_ownerOfPath off hoff) ?_ ?_ rfl
          (List.cons_ne_nil _ _)
        · refine tabFree_token l hl desc ?_
          rw [heq]
          exact List.mem_cons_of_mem _ (List.mem_cons_of_mem _ (List.mem_cons_self _ _))
        · intro n hn
          rcases List.mem_cons.mp hn with hn1 | hn1
          · subst hn1
            exact tabFree_nameOfPath off hoff
          · rw [List.mem_singleton] at hn1
            subst hn1
            refine tabFree_token l hl n ?_
            rw [heq]
            exact List.mem_cons_of_mem _ (List.mem_cons_of_mem _
              (List.mem_cons_of_mem _ (List.mem_cons_self _ _)))
      · exact Except.noConfusion h
    · rw [if_neg h2] at h
      by_cases h3 : pystartswith (pystrip l) ".field_map" = true
      · rw [if_pos h3] at h
        split at h
        · rename_i head off named heq
          have hoff : tabFree off := by
            refine tabFree_token l hl off ?_
            rw [heq]
            exact List.mem_cons_of_mem _ (List.mem_cons_self _ _)
          split at h
          · cases h
            show linesInv 2 hdr (warn dw st _).writer
            rw [warn_writer]
            exact hw
          · rename_i ds hlo
            split at h
            · cases h
              show linesInv 2 hdr (warn dw st _).writer
              rw [warn_writer]
              exact hw
            · rename_i d hli
              cases h
              have hd : tabFree d := by
                have hm1 := mem_of_lookup dm (ownerOfPath off) ds hlo
                have hm2 := mem_of_lookup ds (nameOfPath off) d hli
                exact hdm _ hm1 _ hm2
              apply linesInv_add_field 2 hdr st.writer (ownerOfPath off) d
                [nameOfPath off, named] hw (tabFree_ownerOfPath off hoff) hd ?_ rfl
                (List.cons_ne_nil _ _)
              intro n hn
              rcases List.mem_cons.mp hn with hn1 | hn1
              · subst hn1
                exact tabFree_nameOfPath off hoff
              · rw [List.mem_singleton] at hn1
                subst hn1
                refine tabFree_token l hl n ?_
                rw [heq]
                exact List.mem_cons_of_mem _ (List.mem_cons_of_mem _
                  (List.mem_cons_self _ _))
        · exact Except.noConfusion h
      · rw [if_neg h3] at h
        by_cases h4 : pystartswith (pystrip l) "### GENERATED MAPPINGS:" = true
        · rw [if_pos h4] at h
          cases h
          exact hw
        · rw [if_neg h4] at h
          cases h
          exact hw

theorem revengpackLoop_inv (dm : DescMap) (dw : Bool) (lines : List String)
    (st st1 : POut) (hdr : String) (hdm : dmTabFree dm)
    (hls : ∀ l ∈ lines, tabFree l) (hw : linesInv 2 hdr st.writer)
    (h : revengpackLoop dm dw st lines = .ok st1) : linesInv 2 hdr st1.writer := by
  induction lines generalizing st with
  | nil =>
    cases h
    exact hw
  | cons l ls ih =>
    unfold revengpackLoop at h
    cases hs : revengpackStep dm dw st l with
    | error e =>
      rw [hs] at h
      exact Except.noConfusion h
    | ok r =>
      rw [hs] at h
      have hinv := revengpackStep_inv dm dw st l r hdr hdm
        (hls l (List.mem_cons_self _ _)) hw hs
      cases r with
      | stop s2 =>
        cases h
        exact hinv
      | cont s2 =>
        exact ih s2 (fun l2 hl2 => hls l2 (List.mem_cons_of_mem _ hl2)) hinv h

theorem skipHeaders_ok (n : Nat) (rows rows1 : List (List String))
    (h : skipHeaders n rows = .ok rows1) : rows1 = rows.drop n := by
  unfold skipHeaders at h
  split at h
  · exact Except.noConfusion h
  · cases h
    rfl

theorem bridgeMethodPass_inv (br br1 : Bridge) (l : String) (hl : tabFree l)
    (hbr : bridgeTabFree br) (h : bridgeMethodPass br l = .ok br1) :
    bridgeTabFree br1 := by
  unfold bridgeMethodPass at h
  by_cases h1 : pystartswith l ".method_map" = true
  · rw [if_pos h1] at h
    split at h
    · rename_i head offName desc inter heq
      cases h
      refine ⟨?_, hbr.2⟩
      intro p hp
      rcases List.mem_cons.mp hp with hp1 | hp1
      · subst hp1
        constructor
        · refine tabFree_of_mem_pysplit ' ' l hl _ ?_
          rw [heq]
          exact List.mem_cons_of_mem _ (List.mem_cons_self _ _)
        · refine tabFree_of_mem_pysplit ' ' l hl _ ?_
          rw [heq]
          exact List.mem_cons_of_mem _ (List.mem_cons_of_mem _ (List.mem_cons_self _ _))
      · exact hbr.1 p hp1
    · exact Except.noConfusion h
  · rw [if_neg h1] at h
    cases h
    exact hbr

theorem bridgeFieldPass_inv (br br1 : Bridge) (l : String) (hl : tabFree l)
    (hbr : bridgeTabFree br) (h : bridgeFieldPass br l = .ok br1) :
    bridgeTabFree br1 := by
  unfold bridgeFieldPass at h
  by_cases h1 : pystartswith l ".field_map" = true
  · rw [if_pos h1] at h
    split at h
    · rename_i head offName inter heq
      cases h
      refine ⟨hbr.1, ?_⟩
      intro p hp
      rcases List.mem_cons.mp hp with hp1 | hp1
      · subst hp1
        refine tabFree_of_mem_pysplit ' ' l hl _ ?_
        rw [heq]
        exact List.mem_cons_of_mem _ (List.mem_cons_self _ _)
      · exact hbr.2 p hp1
    · exact Except.noConfusion h
  · rw [if_neg h1] at h
    cases h
    exact hbr

theorem bridgeStep_inv (br br1 : Bridge) (rawLine : String) (hl : tabFree rawLine)
    (hbr : bridgeTabFree br) (h : bridgeStep br rawLine = .ok br1) :
    bridgeTabFree br1 := by
  unfold bridgeStep at h
  cases hm : bridgeMethodPass br (pystrip rawLine) with
  | error e =>
    rw [hm] at h
    exact Except.noConfusion h
  | ok br2 =>
    rw [hm] at h
    exact bridgeFieldPass_inv br2 br1 (pystrip rawLine) (tabFree_pystrip _ hl)
      (bridgeMethodPass_inv br br2 _ (tabFree_pystrip _ hl) hbr hm) h

theorem bridgeLoop_inv (lines : List String) (br br1 : Bridge)
    (hls : ∀ l ∈ lines, tabFree l) (hbr : bridgeTabFree br)
    (h : bridgeLoop br lines = .ok br1) : bridgeTabFree br1 := by
  induction lines generalizing br with
  | nil =>
    cases h
    exact hbr
  | cons l ls ih =>
    unfold bridgeLoop at h
    cases hs : bridgeStep br l with
    | error e =>
      rw [hs] at h
      exact Except.noConfusion h
    | ok br2 =>
      rw [hs] at h
      exact ih br2 (fun l2 hl2 => hls l2 (List.mem_cons_of_mem _ hl2))
        (bridgeStep_inv br br2 l (hls l (List.mem_cons_self _ _)) hbr hs) h

theorem buildBridge_inv (lines : List String) (br : Bridge)
    (hls : ∀ l ∈ lines, tabFree l) (h : buildBridge lines = .ok br) :
    bridgeTabFree br :=
  bridgeLoop_inv lines ⟨[], []⟩ br hls
    ⟨fun p hp => absurd hp (List.not_mem_nil p), fun p hp => absurd hp (List.not_mem_nil p)⟩ h

theorem alphaClassStep_inv (cv : Nat) (st : POut) (entry : List String) (st1 : POut)
    (hdr : String) (hrow : ∀ c ∈ entry, tabFree c) (hw : linesInv 3 hdr st.writer)
    (h : alphaClassStep cv st entry = .ok st1) : linesInv 3 hdr st1.writer := by
  unfold alphaClassStep at h
  cases hg : entry[cv]? with
  | none =>
    rw [hg] at h
    exact Except.noConfusion h
  | some sel =>
    rw [hg] at h
    dsimp only at h
    by_cases hsel : (sel == "*") = true
    · rw [if_pos hsel] at h
      cases h
      exact hw
    · rw [if_neg hsel] at h
      cases hg0 : entry[0]? with
      | none =>
        rw [hg0] at h
        exact Except.noConfusion h
      | some e0 =>
        rw [hg0] at h
        dsimp only at h
        cases h
        apply linesInv_add_class 3 hdr st.writer [sel, sel, e0] hw ?_ rfl
          (List.cons_ne_nil _ _)
        intro n hn
        have hsel_mem : sel ∈ entry := List.getElem?_mem hg
        have he0_mem : e0 ∈ entry := List.getElem?_mem hg0
        rcases List.mem_cons.mp hn with hn1 | hn1
        · subst hn1
          exact hrow n hsel_mem
        · rcases List.mem_cons.mp hn1 with hn2 | hn2
          · subst hn2
            exact hrow n hsel_mem
          · rw [List.mem_singleton] at hn2
            subst hn2
            exact hrow n he0_mem

theorem alphaFieldStep_inv (br : Bridge) (dm : DescMap) (dw : Bool) (st : POut)
    (entry : List String) (st1 : POut) (hdr : String) (hbr : bridgeTabFree br)
    (hdm : dmTabFree dm) (hrow : ∀ c ∈ entry, tabFree c)
    (hw : linesInv 3 hdr st.writer) (h : alphaFieldStep br dm dw st entry = .ok st1) :
    linesInv 3 hdr st1.writer := by
  unfold alphaFieldStep at h
  by_cases h7 : entry.length < 7
  · rw [if_pos h7] at h
    cases h
    exact hw
  · rw [if_neg h7] at h
    dsimp only at h
    by_cases hstar : (entry.getD 2 "" == "*") = true
    · rw [if_pos hstar] at h
      cases h
      exact hw
    · rw [if_neg hstar] at h
      cases hlook : List.lookup (entry.getD 2 "") br.field_map with
      | none =>
        simp only [hlook] at h
        cases h
        show linesInv 3 hdr (warn dw st _).writer
        rw [warn_writer]
        exact hw
      | some offPath =>
        simp only [hlook] at h
        have hpath : tabFree offPath := hbr.2 _ (mem_of_lookup _ _ _ hlook)
        cases hlo : List.lookup (ownerOfPath offPath) dm with
        | none =>
          simp only [hlo] at h
          cases h
          show linesInv 3 hdr (warn dw st _).writer
          rw [warn_writer]
          exact hw
        | some ownerDescs =>
          simp only [hlo] at h
          cases hli : List.lookup (nameOfPath offPath) ownerDescs with
          | none =>
            simp only [hli] at h
            cases h
            show linesInv 3 hdr (warn dw st _).writer
            rw [warn_writer]
            exact hw
          | some d =>
            simp only [hli] at h
            cases h
            have hd : tabFree d :=
              hdm _ (mem_of_lookup dm _ ownerDescs hlo) _ (mem_of_lookup ownerDescs _ d hli)
            apply linesInv_add_field 3 hdr st.writer (ownerOfPath offPath) d
              [nameOfPath offPath, entry.getD 2 "", entry.getD 6 ""] hw
              (tabFree_ownerOfPath _ hpath) hd ?_ rfl (List.cons_ne_nil _ _)
            intro n hn
            have h2 : tabFree (entry.getD 2 "") := hrow _ (getD_mem entry 2 "" (by omega))
            have h6 : tabFree (entry.getD 6 "") := hrow _ (getD_mem entry 6 "" (by omega))
            rcases List.mem_cons.mp hn with hn1 | hn1
            · subst hn1
              exact tabFree_nameOfPath _ hpath
            · rcases List.mem_cons.mp hn1 with hn2 | hn2
              · subst hn2
                exact h2
              · rw [List.mem_singleton] at hn2
                subst hn2
                exact h6

theorem alphaMethodStep_inv (br : Bridge) (dw : Bool) (st : POut)
    (entryRaw : List String) (st1 : POut) (hdr : String) (hbr : bridgeTabFree br)
    (hrow : ∀ c ∈ entryRaw, tabFree c) (hw : linesInv 3 hdr st.writer)
    (h : alphaMethodStep br dw st entryRaw = .ok st1) : linesInv 3 hdr st1.writer := by
  have hrow2 : ∀ c ∈ entryRaw.map pystrip, tabFree c := by
    intro c hc
    rcases List.mem_map.mp hc with ⟨c0, hc0, hceq⟩
    subst hceq
    exact tabFree_pystrip c0 (hrow c0 hc0)
  unfold alphaMethodStep at h
  dsimp only at h
  by_cases h5 : (entryRaw.map pystrip).length < 5
  · rw [if_pos h5] at h
    cases h
    exact hw
  · rw [if_neg h5] at h
    by_cases hstar : ((entryRaw.map pystrip).getD 1 "" == "*" ||
        ((entryRaw.map pystrip).getD 1 "").length == 0) = true
    · rw [if_pos hstar] at h
      cases h
      exact hw
    · rw [if_neg hstar] at h
      by_cases h4 : ((entryRaw.map pystrip).getD 4 "" == "*") = true
      · rw [if_pos h4] at h
        exact Except.noConfusion h
      · rw [if_neg h4] at h
        cases hlook : List.lookup ((entryRaw.map pystrip).getD 1 "") br.method_map with
        | none =>
          simp only [hlook] at h
          cases h
          show linesInv 3 hdr (warn dw st _).writer
          rw [warn_writer]
          exact hw
        | some po =>
          simp only [hlook] at h
          cases h
          have hpo := hbr.1 _ (mem_of_lookup _ _ _ hlook)
          apply linesInv_add_method 3 hdr st.writer (ownerOfPath po.1) po.2
            [nameOfPath po.1, (entryRaw.map pystrip).getD 1 "",
              (entryRaw.map pystrip).getD 4 ""] hw (tabFree_ownerOfPath _ hpo.1) hpo.2
            ?_ rfl (List.cons_ne_nil _ _)
          intro n hn
          have hm1 : tabFree ((entryRaw.map pystrip).getD 1 "") :=
            hrow2 _ (getD_mem _ 1 "" (by omega))
          have hm4 : tabFree ((entryRaw.map pystrip).getD 4 "") :=
            hrow2 _ (getD_mem _ 4 "" (by omega))
          rcases List.mem_cons.mp hn with hn1 | hn1
          · subst hn1
            exact tabFree_nameOfPath _ hpo.1
          · rcases List.mem_cons.mp hn1 with hn2 | hn2
            · subst hn2
              exact hm1
            · rw [List.mem_singleton] at hn2
              subst hn2
              exact hm4

theorem sectionLoop_inv (step : POut → List String → Except PyErr POut)
    (P : POut → Prop) (rows : List (List String))
    (hstep : ∀ st r st1, r ∈ rows → P st → step st r = .ok st1 → P st1)
    (st st1 : POut) (hP : P st) (h : sectionLoop step st rows = .ok st1) : P st1 := by
  induction rows generalizing st with
  | nil =>
    cases h
    exact hP
  | cons r rs ih =>
    unfold sectionLoop at h
    cases hs : step st r with
    | error e =>
      rw [hs] at h
      exact Except.noConfusion h
    | ok st2 =>
      rw [hs] at h
      exact ih (fun sa ra sb hra => hstep sa ra sb (List.mem_cons_of_mem _ hra)) st2
        (hstep st r st2 (List.mem_cons_self _ _) hP hs) h

theorem revengpackRun_inv (dm : DescMap) (dw : Bool) (lines : List String)
    (st1 : POut) (hdm : dmTabFree dm) (hls : ∀ l ∈ lines, tabFree l)
    (h : revengpackRun dm dw lines = .ok st1) :
    linesInv 2 ("v1\t" ++ pyjoin "\t" ["official", "named"]) st1.writer := by
  refine revengpackLoop_inv dm dw lines _ st1 _ hdm hls ⟨[], rfl, ?_⟩ h
  intro l hl
  cases hl

theorem alphaRun_inv (dm : DescMap) (dw : Bool) (cv : Nat)
    (classesRows : List (List String)) (rgsLines : List String)
    (fieldsRows methodsRows : List (List String)) (stA : POut)
    (hdm : dmTabFree dm) (hrgs : ∀ l ∈ rgsLines, tabFree l)
    (hcls : rowsTabFree classesRows) (hflds : rowsTabFree fieldsRows)
    (hmths : rowsTabFree methodsRows)
    (h : alphaRun dm dw cv classesRows rgsLines fieldsRows methodsRows = .ok stA) :
    linesInv 3 ("v1\t" ++ pyjoin "\t" ["official", "intermediary", "named"])
      stA.writer := by
  unfold alphaRun at h
  cases hh1 : skipHeaders 4 classesRows with
  | error e => simp only [hh1] at h; exact Except.noConfusion h
  | ok cls =>
  simp only [hh1] at h
  cases hh2 : sectionLoop (alphaClassStep cv)
      ⟨TinyV1Writer.create ["official", "intermediary", "named"], []⟩ cls with
  | error e => simp only [hh2] at h; exact Except.noConfusion h
  | ok stc =>
  simp only [hh2] at h
  cases hh3 : buildBridge rgsLines with
  | error e => simp only [hh3] at h; exact Except.noConfusion h
  | ok br =>
  simp only [hh3] at h
  cases hh4 : skipHeaders 3 fieldsRows with
  | error e => simp only [hh4] at h; exact Except.noConfusion h
  | ok flds =>
  simp only [hh4] at h
  cases hh5 : sectionLoop (alphaFieldStep br dm dw) stc flds with
  | error e => simp only [hh5] at h; exact Except.noConfusion h
  | ok stf =>
  simp only [hh5] at h
  cases hh6 : skipHeaders 4 methodsRows with
  | error e => simp only [hh6] at h; exact Except.noConfusion h
  | ok mths =>
  simp only [hh6] at h
  have hbr : bridgeTabFree br := buildBridge_inv rgsLines br hrgs hh3
  have hclsrows : ∀ r ∈ cls, ∀ c ∈ r, tabFree c := by
    intro r hr
    have : r ∈ classesRows := by
      rw [skipHeaders_ok 4 classesRows cls hh1] at hr
      exact List.drop_subset _ _ hr
    exact hcls r this
  have hfldsrows : ∀ r ∈ flds, ∀ c ∈ r, tabFree c := by
    intro r hr
    have : r ∈ fieldsRows := by
      rw [skipHeaders_ok 3 fieldsRows flds hh4] at hr
      exact List.drop_subset _ _ hr
    exact hflds r this
  have hmthsrows : ∀ r ∈ mths, ∀ c ∈ r, tabFree c := by
    intro r hr
    have : r ∈ methodsRows := by
      rw [skipHeaders_ok 4 methodsRows mths hh6] at hr
      exact List.drop_subset _ _ hr
    exact hmths r this
  have hc : linesInv 3 ("v1\t" ++ pyjoin "\t" ["official", "intermediary", "named"])
      stc.writer := by
    refine sectionLoop_inv (alphaClassStep cv)
      (fun s => linesInv 3 ("v1\t" ++ pyjoin "\t" ["official", "intermediary", "named"]) s.writer)
      cls ?_ _ stc ⟨[], rfl, ?_⟩ hh2
    · intro sa ra sb hra hPa hsa
      exact alphaClassStep_inv cv sa ra sb _ (hclsrows ra hra) hPa hsa
    · intro l hl
      cases hl
  have hf : linesInv 3 ("v1\t" ++ pyjoin "\t" ["official", "intermediary", "named"])
      stf.writer := by
    refine sectionLoop_inv (alphaFieldStep br dm dw)
      (fun s => linesInv 3 ("v1\t" ++ pyjoin "\t" ["official", "intermediary", "named"]) s.writer)
      flds ?_ _ stf hc hh5
    intro sa ra sb hra hPa hsa
    exact alphaFieldStep_inv br dm dw sa ra sb _ hbr hdm (hfldsrows ra hra) hPa hsa
  refine sectionLoop_inv (alphaMethodStep br dw)
    (fun s => linesInv 3 ("v1\t" ++ pyjoin "\t" ["official", "intermediary", "named"]) s.writer)
    mths ?_ _ stA hf h
  intro sa ra sb hra hPa hsa
  exact alphaMethodStep_inv br dw sa ra sb _ hbr (hmthsrows ra hra) hPa hsa

/-- C9: in every output produced by either dialect parser, each record
line carries exactly as many namespace values as the file's header line
declares — two for the directive dialect, three for the tabular dialect —
for Class, Field and Method records alike.  (Stated for tab-free inputs
and descriptor maps: a tab inside an input token would change the line's
cell structure, and no real mapping file contains one.) -/
theorem claim9_namespace_count
    (dmR : DescMap) (dwR : Bool) (linesR : List String) (stR : POut)
    (hdmR : dmTabFree dmR) (hlinesR : ∀ l ∈ linesR, tabFree l)
    (hR : revengpackRun dmR dwR linesR = .ok stR)
    (dmA : DescMap) (dwA : Bool) (cv : Nat)
    (classesRows : List (List String)) (rgsA : List String)
    (fieldsRows methodsRows : List (List String)) (stA : POut)
    (hdmA : dmTabFree dmA) (hrgsA : ∀ l ∈ rgsA, tabFree l)
    (hcls : rowsTabFree classesRows) (hflds : rowsTabFree fieldsRows)
    (hmths : rowsTabFree methodsRows)
    (hA : alphaRun dmA dwA cv classesRows rgsA fieldsRows methodsRows = .ok stA) :
    (stR.writer.lines.head? = some "v1\tofficial\tnamed" ∧
      ∀ l ∈ stR.writer.lines.tail,
        recordNsCount l = some (headerNsCount "v1\tofficial\tnamed")) ∧
    (stA.writer.lines.head? = some "v1\tofficial\tintermediary\tnamed" ∧
      ∀ l ∈ stA.writer.lines.tail,
        recordNsCount l = some (headerNsCount "v1\tofficial\tintermediary\tnamed")) := by
  have e2 : headerNsCount "v1\tofficial\tnamed" = 2 := by decide
  have e3 : headerNsCount "v1\tofficial\tintermediary\tnamed" = 3 := by decide
  constructor
  · obtain ⟨recs, hr, hall⟩ := revengpackRun_inv dmR dwR linesR stR hdmR hlinesR hR
    constructor
    · rw [hr]
      rfl
    · intro l hl
      rw [hr] at hl
      rw [e2]
      exact hall l hl
  · obtain ⟨recs, hr, hall⟩ := alphaRun_inv dmA dwA cv classesRows rgsA fieldsRows
      methodsRows stA hdmA hrgsA hcls hflds hmths hA
    constructor
    · rw [hr]
      rfl
    · intro l hl
      rw [hr] at hl
      rw [e3]
      exact hall l hl

/-- Witness for C9 at concrete minimal runs of both parsers. -/
theorem claim9_namespace_count_witness :
    ((⟨TinyV1Writer.create ["official", "named"], []⟩ : POut).writer.lines.head? =
        some "v1\tofficial\tnamed" ∧
      ∀ l ∈ (⟨TinyV1Writer.create ["official", "named"], []⟩ : POut).writer.lines.tail,
        recordNsCount l = some (headerNsCount "v1\tofficial\tnamed")) ∧
    ((⟨TinyV1Writer.create ["official", "intermediary", "named"], []⟩ :
          POut).writer.lines.head? = some "v1\tofficial\tintermediary\tnamed" ∧
      ∀ l ∈ (⟨TinyV1Writer.create ["official", "intermediary", "named"], []⟩ :
          POut).writer.lines.tail,
        recordNsCount l = some (headerNsCount "v1\tofficial\tintermediary\tnamed")) :=
  claim9_namespace_count [] true [] ⟨TinyV1Writer.create ["official", "named"], []⟩
    (by intro p hp; cases hp) (by intro l hl; cases hl) rfl
    [] true 1 (List.replicate 4 []) [] (List.replicate 3 []) (List.replicate 4 [])
    ⟨TinyV1Writer.create ["official", "intermediary", "named"], []⟩
    (by intro p hp; cases hp) (by intro l hl; cases hl)
    (by intro r hr c hc; rw [List.eq_of_mem_replicate hr] at hc; cases hc)
    (by intro r hr c hc; rw [List.eq_of_mem_replicate hr] at hc; cases hc)
    (by intro r hr c hc; rw [List.eq_of_mem_replicate hr] at hc; cases hc)
    rfl
